import Mathlib

/-!
Verification of the leave-quota ledger of the SiamIt leave-management backend.

The definitions below are a shallow embedding of the ledger code in
`Backend/api/LeaveRequestController.js` (duration normalizer
`calculateDurationDetails`, consume helper `updateLeaveUsed`, the revert block
of the delete route, the quota check of the submission route, and the two
status-update handlers — the guarded one in `LeaveRequestController.js` and the
unguarded duplicate in `TpyeLeaveController.js`) together with the yearly reset
in `Backend/utils/leaveResetService.js`.

Numbers are modelled as exact rationals and integers; a JavaScript value that
may be `NaN` (an invalid date, or day arithmetic on one) is modelled as an
`Option`, with `none` playing the role of `NaN`.
-/

namespace SiamIt

/-- A clock time parsed from an `"HH:MM"` string via `split(':').map(Number)`:
the hour and minute components. -/
structure TimeHM where
  h : ℕ
  m : ℕ
deriving DecidableEq, Repr

/-- The numeric value of a time in fractional hours, `sh + (sm || 0) / 60`,
as used by `calculateDurationDetails`. -/
def TimeHM.toHours (t : TimeHM) : ℚ := (t.h : ℚ) + (t.m : ℚ) / 60

/-- The numeric value of a time in whole minutes, `eh * 60 + em`, as used by
the quota check of the submission route. -/
def TimeHM.toMinutes (t : TimeHM) : ℤ := (t.h : ℤ) * 60 + (t.m : ℤ)

/-- A time is well formed when its components come from a real clock reading
(hour below 24, minute below 60). -/
def TimeHM.Wf (t : TimeHM) : Prop := t.h < 24 ∧ t.m < 60

instance (t : TimeHM) : Decidable t.Wf := by
  unfold TimeHM.Wf; infer_instance

/-- The date/time fields of a leave request that drive the ledger arithmetic.
A date field is `none` when absent (falsy in the route code); a present date is
itself an `Option ℤ` day number, `some (some n)` for a valid date and
`some none` for a string that parses to an Invalid Date (`NaN` arithmetic). -/
structure LeaveFields where
  startTime : Option TimeHM
  endTime   : Option TimeHM
  startDate : Option (Option ℤ)
  endDate   : Option (Option ℤ)
deriving DecidableEq, Repr

/-- Both time fields of a request, when present, are well formed. -/
def LeaveFields.Wf (l : LeaveFields) : Prop :=
  (match l.startTime with | none => True | some t => t.Wf) ∧
  (match l.endTime with | none => True | some t => t.Wf)

/-- Decidability of the well-formedness of one optional time field. -/
def decWfOpt : (o : Option TimeHM) →
    Decidable (match o with | none => True | some t => t.Wf)
  | none => isTrue trivial
  | some t => inferInstanceAs (Decidable t.Wf)

instance (l : LeaveFields) : Decidable l.Wf :=
  letI := decWfOpt l.startTime
  letI := decWfOpt l.endTime
  inferInstanceAs (Decidable (_ ∧ _))

/-- Modelled from the spec: `calculateDaysBetween` lives in `Backend/utils`,
which is not among the provided sources; spec section 4.1 fixes it as the
inclusive day count `floor((endDate − startDate) / 1 day) + 1`.  Dates are
whole day numbers, so the count is `e − s + 1`; an invalid date propagates as
`NaN` (`none`). -/
def calculateDaysBetween : Option ℤ → Option ℤ → Option ℤ
  | some s, some e => some (e - s + 1)
  | _, _ => none

/-- Unit of a leave duration: day-denominated or hour-denominated. -/
inductive DurationType
  | day
  | hour
deriving DecidableEq, Repr

/-- Result of the duration normalizer `calculateDurationDetails`. -/
structure DurationDetails where
  durationType : DurationType
  duration : ℤ
  durationHours : ℚ
  calculatedDays : ℤ
  calculatedHours : ℤ
deriving DecidableEq, Repr

/-- First phase of `calculateDurationDetails` (LeaveRequestController.js,
lines 128-149): the branch on the request fields, producing the triple
`(durationType, duration, durationHours)`.  With both times present the
elapsed fractional hours are `end − start`, wrapped by `+ 24` when negative;
with both dates present the raw inclusive day count is clamped to `0` when
negative or `NaN`. -/
def rawDuration (leave : LeaveFields) : DurationType × ℤ × ℚ :=
  match leave.startTime, leave.endTime with
  | some st, some et =>
      let diff0 := et.toHours - st.toHours
      (DurationType.hour, 0, if diff0 < 0 then diff0 + 24 else diff0)
  | _, _ =>
      match leave.startDate, leave.endDate with
      | some sd, some ed =>
          (DurationType.day,
            match calculateDaysBetween sd ed with
            | none => 0
            | some d => if d < 0 then 0 else d,
            0)
      | _, _ => (DurationType.day, 0, 0)

/-- Second phase of `calculateDurationDetails` (lines 151-160): floor the raw
hours to a whole number and, when they reach `workingHoursPerDay`, carry whole
working days into `calculatedDays`, keeping the remainder as
`calculatedHours`. -/
def normalizeDuration (hpd : ℤ) (raw : DurationType × ℤ × ℚ) : DurationDetails :=
  let ch0 : ℤ := ⌊raw.2.2⌋
  if ch0 ≥ hpd then
    { durationType := raw.1, duration := raw.2.1, durationHours := raw.2.2,
      calculatedDays := raw.2.1 + Int.fdiv ch0 hpd,
      calculatedHours := ch0 % hpd }
  else
    { durationType := raw.1, duration := raw.2.1, durationHours := raw.2.2,
      calculatedDays := raw.2.1,
      calculatedHours := ch0 }

/-- Embedding of `calculateDurationDetails` (LeaveRequestController.js,
lines 123-161), the composition of the two phases above.  `hpd` is the
configured `config.business.workingHoursPerDay` (default 8). -/
def calculateDurationDetails (hpd : ℤ) (leave : LeaveFields) : DurationDetails :=
  normalizeDuration hpd (rawDuration leave)

/-- A `LeaveUsed` row: accumulated consumption per employee and leave type. -/
structure LeaveUsed where
  days : ℤ
  hour : ℤ
deriving DecidableEq, Repr

/-- Ledger core of `updateLeaveUsed` (LeaveRequestController.js, lines
166-199).  `typeResolved` records whether `resolveLeaveType` found the leave
type; on failure the helper logs and returns without touching the row.  The
computed duration is added to the existing row (or a fresh row is created);
the sum is saved as is. -/
def updateLeaveUsed (hpd : ℤ) (typeResolved : Bool) (leave : LeaveFields)
    (rec : Option LeaveUsed) : Option LeaveUsed :=
  if typeResolved = false then rec
  else
    let d := calculateDurationDetails hpd leave
    if d.calculatedDays = 0 ∧ d.calculatedHours = 0 then rec
    else
      match rec with
      | some r => some { days := r.days + d.calculatedDays, hour := r.hour + d.calculatedHours }
      | none => some { days := d.calculatedDays, hour := d.calculatedHours }

/-- Ledger core of the revert block of the delete route
(LeaveRequestController.js, lines 718-732): recompute the duration and
subtract it, clamping each field at `0`; a missing row is left missing, and a
failed leave-type resolution leaves the row untouched. -/
def revertLeaveUsed (hpd : ℤ) (typeResolved : Bool) (leave : LeaveFields)
    (rec : Option LeaveUsed) : Option LeaveUsed :=
  if typeResolved = false then rec
  else
    match rec with
    | none => none
    | some r =>
        let d := calculateDurationDetails hpd leave
        some { days := max 0 (r.days - d.calculatedDays),
               hour := max 0 (r.hour - d.calculatedHours) }

/-- The duration computed by the submission route (router.post of
LeaveRequestController.js, lines 300-317), used only for the quota check.
`reqDays` is `none` when the JavaScript value is `NaN` (absent or invalid
dates). -/
structure SubmissionDuration where
  reqDays : Option ℤ
  reqHours : ℚ
deriving DecidableEq, Repr

/-- Embedding of the duration computation of the submission route.  The hour
branch (taken when `durationType === 'hour'` and both times are present) keeps
fractional hours; the day branch forces a minimum of one day
(`if (reqDays <= 0) reqDays = 1`, which leaves `NaN` untouched since the
comparison is false on `NaN`). -/
def submissionDuration (hourType : Bool) (l : LeaveFields) : SubmissionDuration :=
  match hourType, l.startTime, l.endTime with
  | true, some st, some et =>
      let diff0 := et.toMinutes - st.toMinutes
      let diff := if diff0 < 0 then diff0 + 24 * 60 else diff0
      { reqDays := some 0, reqHours := (diff : ℚ) / 60 }
  | _, _, _ =>
      { reqDays :=
          match calculateDaysBetween l.startDate.join l.endDate.join with
          | none => none
          | some d => if d ≤ 0 then some 1 else some d,
        reqHours := 0 }

/-- Outcome of the pre-submission quota gate. -/
inductive QuotaDecision
  | admitted
  | denied (remainingDays : ℚ)
  | noQuota
deriving DecidableEq, Repr

/-- JavaScript `toFixed(2)` on an exact rational: round to hundredths, ties
toward the larger value. -/
def toFixed2 (q : ℚ) : ℚ := (⌊q * 100 + 1 / 2⌋ : ℚ) / 100

/-- `usedRow ? usedRow.days : 0` -/
def leaveUsedDays : Option LeaveUsed → ℤ
  | some u => u.days
  | none => 0

/-- `usedRow ? usedRow.hour : 0` -/
def leaveUsedHour : Option LeaveUsed → ℤ
  | some u => u.hour
  | none => 0

/-- Embedding of the quota gate of the submission route
(LeaveRequestController.js, lines 324-353).  The whole check is skipped for
the Emergency leave type; a missing quota row is a validation error; otherwise
everything is converted to hours and the request is rejected when
`used + request > quota`, reporting the remaining days to two decimals.  A
`NaN` request amount (`reqDays = none`) makes the comparison false in
JavaScript, so no error is thrown and the request is admitted. -/
def quotaCheck (hpd : ℚ) (isEmergency : Bool) (quotaRow : Option ℚ)
    (used : Option LeaveUsed) (sd : SubmissionDuration) : QuotaDecision :=
  if isEmergency then QuotaDecision.admitted
  else
    match quotaRow with
    | none => QuotaDecision.noQuota
    | some quota =>
        let totalQuotaUnits := quota * hpd
        let totalUsedUnits := (leaveUsedDays used : ℚ) * hpd + (leaveUsedHour used : ℚ)
        match sd.reqDays with
        | none => QuotaDecision.admitted
        | some d =>
            let totalRequestUnits := (d : ℚ) * hpd + sd.reqHours
            if totalUsedUnits + totalRequestUnits > totalQuotaUnits then
              QuotaDecision.denied (toFixed2 ((totalQuotaUnits - totalUsedUnits) / hpd))
            else QuotaDecision.admitted

/-- Status of a stored leave request. -/
inductive Status
  | pending
  | approved
  | rejected
deriving DecidableEq, Repr

/-- The persisted part of a leave request that the status routes read. -/
structure StoredRequest where
  status : Status
  repid : ℕ
  fields : LeaveFields
deriving DecidableEq, Repr

/-- Outcome reported by a status route. -/
inductive StatusOutcome
  | ok
  | invalidStatus
  | selfApproval
  | alreadyProcessed
deriving DecidableEq, Repr

/-- Persisted state after a status route ran. -/
structure StatusResult where
  request : StoredRequest
  used : Option LeaveUsed
  outcome : StatusOutcome
deriving DecidableEq, Repr

/-- Embedding of PUT `/:id/status` of LeaveRequestController.js (lines
629-709), guards in code order: the new status must be approved or rejected,
the approver must not be the submitter, and an already-processed request is
refused.  On approve, `updateLeaveUsed` runs before the request row is saved;
its failures are caught and logged inside the helper, so the save proceeds
regardless, outside any transaction.  No quota check runs here. -/
def putStatusLRC (hpd : ℤ) (typeResolved : Bool) (newStatus : Status) (approverId : ℕ)
    (req : StoredRequest) (used : Option LeaveUsed) : StatusResult :=
  if newStatus ≠ Status.approved ∧ newStatus ≠ Status.rejected then
    ⟨req, used, StatusOutcome.invalidStatus⟩
  else if req.repid = approverId then
    ⟨req, used, StatusOutcome.selfApproval⟩
  else if req.status = Status.approved ∨ req.status = Status.rejected then
    ⟨req, used, StatusOutcome.alreadyProcessed⟩
  else
    let req2 := { req with status := newStatus }
    if newStatus = Status.approved then
      ⟨req2, updateLeaveUsed hpd typeResolved req.fields used, StatusOutcome.ok⟩
    else
      ⟨req2, used, StatusOutcome.ok⟩

/-- Embedding of the duplicate PUT `/:id/status` in TpyeLeaveController.js
(lines 866-915): the same persistence logic but with none of the guards — no
status validation, no self-approval check, no already-processed check.  The
reject branch records the rejection but never touches the usage row. -/
def putStatusTLC (hpd : ℤ) (typeResolved : Bool) (newStatus : Status) (_approverId : ℕ)
    (req : StoredRequest) (used : Option LeaveUsed) : StatusResult :=
  let req2 := { req with status := newStatus }
  if newStatus = Status.approved then
    ⟨req2, updateLeaveUsed hpd typeResolved req.fields used, StatusOutcome.ok⟩
  else
    ⟨req2, used, StatusOutcome.ok⟩

/-- Embedding of DELETE `/:id` of LeaveRequestController.js (lines 712-742):
the usage row is reverted only when the request was approved; the function
returns the persisted usage row (the request row itself is then deleted). -/
def deleteRequestLRC (hpd : ℤ) (typeResolved : Bool) (req : StoredRequest)
    (used : Option LeaveUsed) : Option LeaveUsed :=
  if req.status = Status.approved then revertLeaveUsed hpd typeResolved req.fields used
  else used

/-- A position row: id and the `new_year_quota` flag (0 marks the position for
the automatic yearly reset). -/
structure PositionRow where
  id : ℕ
  new_year_quota : ℤ
deriving DecidableEq, Repr

/-- A user row: id and position. -/
structure UserRow where
  id : ℕ
  position : ℕ
deriving DecidableEq, Repr

/-- A `LeaveUsed` row keyed by its user (the leave-type key is irrelevant to
the reset, which filters on `user_id` only). -/
structure UsageRow where
  user_id : ℕ
  days : ℤ
  hour : ℤ
deriving DecidableEq, Repr

/-- A `LeaveQuota` (entitlement) row. -/
structure QuotaRow where
  positionId : ℕ
  leaveTypeId : ℕ
  quota : ℚ
deriving DecidableEq, Repr

/-- The relational state the reset service reads and writes. -/
structure ResetState where
  positions : List PositionRow
  users : List UserRow
  leaveUsed : List UsageRow
  leaveQuota : List QuotaRow
deriving DecidableEq, Repr

/-- The counts reported by the reset service. -/
structure ResetSummary where
  positionsCount : ℕ
  usersCount : ℕ
  affectedRows : ℕ
deriving DecidableEq, Repr

/-- Steps 2-4 of `executeResetLogic` (leaveResetService.js, lines 50-103):
resolve the users of the targeted positions and apply the strategy — `delete`
removes their `LeaveUsed` rows, anything else zeroes `days` and `hour` in
place.  Empty scopes are successful no-ops. -/
def resetCore (strat : String) (positionIds : List ℕ) (st : ResetState) :
    Except String (ResetState × ResetSummary) :=
  if positionIds.isEmpty then
    Except.ok (st, ⟨0, 0, 0⟩)
  else
    let userIds := (st.users.filter (fun u => positionIds.contains u.position)).map (fun u => u.id)
    if userIds.isEmpty then
      Except.ok (st, ⟨positionIds.length, 0, 0⟩)
    else if strat = "delete" then
      let kept := st.leaveUsed.filter (fun r => !(userIds.contains r.user_id))
      Except.ok ({ st with leaveUsed := kept },
        ⟨positionIds.length, userIds.length, st.leaveUsed.length - kept.length⟩)
    else
      let zeroed := st.leaveUsed.map (fun r =>
        if userIds.contains r.user_id then { r with days := 0, hour := 0 } else r)
      Except.ok ({ st with leaveUsed := zeroed },
        ⟨positionIds.length, userIds.length,
          (st.leaveUsed.filter (fun r => userIds.contains r.user_id)).length⟩)

/-- Embedding of `executeResetLogic` (leaveResetService.js, lines 12-114).
The strategy option defaults to `"zero"`; the date guard requires January 1st
unless `force` is set; the scope is either the one given position (which must
exist) or every position with `new_year_quota = 0`. -/
def executeResetLogic (force isJanFirst : Bool) (strategy : Option String)
    (positionId : Option ℕ) (st : ResetState) :
    Except String (ResetState × ResetSummary) :=
  let strat := strategy.getD "zero"
  if force = false ∧ isJanFirst = false then
    Except.error "Reset is only allowed on January 1st (or set force=true)"
  else
    match positionId with
    | some pid =>
        if st.positions.any (fun p => p.id == pid) then resetCore strat [pid] st
        else Except.error "Position not found"
    | none =>
        resetCore strat
          ((st.positions.filter (fun p => p.new_year_quota == 0)).map (fun p => p.id)) st

/-! ### Basic facts about the duration normalizer -/

theorem toHours_nonneg (t : TimeHM) : 0 ≤ t.toHours := by
  unfold TimeHM.toHours; positivity

theorem toHours_lt_24 {t : TimeHM} (ht : t.Wf) : t.toHours < 24 := by
  obtain ⟨h1, h2⟩ := ht
  have hh : (t.h : ℚ) ≤ 23 := by exact_mod_cast Nat.lt_succ_iff.mp h1
  have hm : (t.m : ℚ) ≤ 59 := by exact_mod_cast Nat.lt_succ_iff.mp h2
  unfold TimeHM.toHours
  linarith

/-- The raw `duration` (day count) is never negative: the code clamps a
negative or `NaN` count to `0`. -/
theorem rawDuration_duration_nonneg (l : LeaveFields) : 0 ≤ (rawDuration l).2.1 := by
  unfold rawDuration
  rcases l with ⟨st, et, sd, ed⟩
  rcases st with _ | t1 <;> rcases et with _ | t2 <;> dsimp only <;>
    [skip; skip; skip; exact le_refl 0] <;>
    (rcases sd with _ | d1 <;> rcases ed with _ | d2 <;> dsimp only) <;>
    try exact le_refl 0
  all_goals {
    rcases d1 with _ | n1 <;> rcases d2 with _ | n2 <;>
      simp only [calculateDaysBetween] <;> try exact le_refl 0
    split <;> omega
  }

/-- Under well-formed clock times the raw fractional hours lie in `[0, 24)`. -/
theorem rawDuration_hours_bounds :
    ∀ (l : LeaveFields), l.Wf → 0 ≤ (rawDuration l).2.2 ∧ (rawDuration l).2.2 < 24
  | ⟨some t1, some t2, _, _⟩, hl => by
      have hw1 : t1.Wf := hl.1
      have hw2 : t2.Wf := hl.2
      have a1 := toHours_nonneg t1
      have a2 := toHours_nonneg t2
      have b1 := toHours_lt_24 hw1
      have b2 := toHours_lt_24 hw2
      unfold rawDuration
      dsimp only
      constructor <;> split <;> linarith
  | ⟨some _, none, sd, ed⟩, _ => by
      unfold rawDuration
      rcases sd with _ | d1 <;> rcases ed with _ | d2 <;> dsimp only <;> norm_num
  | ⟨none, _, sd, ed⟩, _ => by
      unfold rawDuration
      rcases sd with _ | d1 <;> rcases ed with _ | d2 <;> dsimp only <;> norm_num

/-- The normalization phase leaves `calculatedHours` in `[0, hpd)` whenever
the raw hours are nonnegative and the working day is positive. -/
theorem normalizeDuration_hours_bounds (hpd : ℤ) (raw : DurationType × ℤ × ℚ)
    (hh : 0 ≤ raw.2.2) (hpdpos : 0 < hpd) :
    0 ≤ (normalizeDuration hpd raw).calculatedHours ∧
    (normalizeDuration hpd raw).calculatedHours < hpd := by
  unfold normalizeDuration
  dsimp only
  split <;> rename_i hsp <;> dsimp only
  · exact ⟨Int.emod_nonneg _ (ne_of_gt hpdpos), Int.emod_lt_of_pos _ hpdpos⟩
  · exact ⟨Int.floor_nonneg.mpr hh, by omega⟩

/-- The normalization phase keeps `calculatedDays` nonnegative. -/
theorem normalizeDuration_days_nonneg (hpd : ℤ) (raw : DurationType × ℤ × ℚ)
    (hd : 0 ≤ raw.2.1) (hh : 0 ≤ raw.2.2) (hpdpos : 0 < hpd) :
    0 ≤ (normalizeDuration hpd raw).calculatedDays := by
  unfold normalizeDuration
  dsimp only
  split <;> rename_i hsp <;> dsimp only
  · have h0 : (0 : ℤ) ≤ ⌊raw.2.2⌋ := Int.floor_nonneg.mpr hh
    have : 0 ≤ Int.fdiv ⌊raw.2.2⌋ hpd := by
      rw [Int.fdiv_eq_ediv _ hpdpos.le]
      exact Int.ediv_nonneg h0 hpdpos.le
    omega
  · exact hd

/-- Bundle: under well-formed times and a positive working day the normalized
duration components are nonnegative and the hour part is below one working
day. -/
theorem calcDetails_bounds (hpd : ℤ) (l : LeaveFields) (hl : l.Wf) (hpdpos : 0 < hpd) :
    0 ≤ (calculateDurationDetails hpd l).calculatedDays ∧
    0 ≤ (calculateDurationDetails hpd l).calculatedHours ∧
    (calculateDurationDetails hpd l).calculatedHours < hpd := by
  have hb := rawDuration_hours_bounds l hl
  have hd := rawDuration_duration_nonneg l
  have h1 := normalizeDuration_hours_bounds hpd (rawDuration l) hb.1 hpdpos
  have h2 := normalizeDuration_days_nonneg hpd (rawDuration l) hd hb.1 hpdpos
  exact ⟨h2, h1.1, h1.2⟩

theorem normalizeDuration_duration (hpd : ℤ) (raw : DurationType × ℤ × ℚ) :
    (normalizeDuration hpd raw).duration = raw.2.1 := by
  unfold normalizeDuration; dsimp only; split <;> rfl

theorem normalizeDuration_durationHours (hpd : ℤ) (raw : DurationType × ℤ × ℚ) :
    (normalizeDuration hpd raw).durationHours = raw.2.2 := by
  unfold normalizeDuration; dsimp only; split <;> rfl

/-- The request of the wraparound scenario: 22:00 to 02:00. -/
def requestWrapAround : LeaveFields := ⟨some ⟨22, 0⟩, some ⟨2, 0⟩, none, none⟩

/-- A ninety-minute request, 09:00 to 10:30. -/
def requestNinetyMinutes : LeaveFields := ⟨some ⟨9, 0⟩, some ⟨10, 30⟩, none, none⟩

/-- A five-hour request, 09:00 to 14:00. -/
def requestFiveHours : LeaveFields := ⟨some ⟨9, 0⟩, some ⟨14, 0⟩, none, none⟩

/-- A day-denominated request whose end date (day 5) precedes its start date
(day 10). -/
def requestReversedDates : LeaveFields := ⟨none, none, some (some 10), some (some 5)⟩

/-- The wrapped time difference of the hour branch equals the mathematical
`(end − start) mod 24` whenever both clock times are well formed. -/
theorem rawDuration_hour_mod (l : LeaveFields) (t1 t2 : TimeHM)
    (hl : l.Wf) (hs : l.startTime = some t1) (he : l.endTime = some t2) :
    (rawDuration l).2.2 =
      (t2.toHours - t1.toHours) - 24 * ⌊(t2.toHours - t1.toHours) / 24⌋ := by
  rcases l with ⟨st, et, sd, ed⟩
  simp only at hs he
  cases hs; cases he
  have hw1 : t1.Wf := hl.1
  have hw2 : t2.Wf := hl.2
  have a1 := toHours_nonneg t1
  have a2 := toHours_nonneg t2
  have b1 := toHours_lt_24 hw1
  have b2 := toHours_lt_24 hw2
  unfold rawDuration
  dsimp only
  split <;> rename_i hneg
  · have hfl : ⌊(t2.toHours - t1.toHours) / 24⌋ = -1 := by
      rw [Int.floor_eq_iff]
      constructor
      · push_cast
        rw [le_div_iff₀ (by norm_num : (0:ℚ) < 24)]
        linarith
      · push_cast
        rw [div_lt_iff₀ (by norm_num : (0:ℚ) < 24)]
        linarith
    rw [hfl]
    push_cast
    ring
  · have hfl : ⌊(t2.toHours - t1.toHours) / 24⌋ = 0 := by
      rw [Int.floor_eq_iff]
      constructor
      · push_cast
        rw [le_div_iff₀ (by norm_num : (0:ℚ) < 24)]
        linarith
      · push_cast
        rw [div_lt_iff₀ (by norm_num : (0:ℚ) < 24)]
        linarith
    rw [hfl]
    push_cast
    ring

/-- **C8.**  The duration normalizer is total and never produces negative
consumption: with both times present the elapsed hours are the difference
modulo 24 (hence nonnegative, and 22:00 to 02:00 yields 4 hours), and a
date-range request whose raw inclusive day count is `NaN` or negative has its
day count clamped to 0; the day count is nonnegative for every input. -/
theorem c8_normalizer_safety (hpd : ℤ) :
    (∀ (l : LeaveFields) (t1 t2 : TimeHM), l.Wf →
        l.startTime = some t1 → l.endTime = some t2 →
        (calculateDurationDetails hpd l).durationHours =
          (t2.toHours - t1.toHours) - 24 * ⌊(t2.toHours - t1.toHours) / 24⌋ ∧
        0 ≤ (calculateDurationDetails hpd l).durationHours) ∧
    (calculateDurationDetails hpd requestWrapAround).durationHours = 4 ∧
    (∀ (l : LeaveFields) (sd ed : Option ℤ), l.startTime = none →
        l.startDate = some sd → l.endDate = some ed →
        (calculateDaysBetween sd ed = none ∨
          ∃ d, calculateDaysBetween sd ed = some d ∧ d < 0) →
        (calculateDurationDetails hpd l).duration = 0) ∧
    (∀ l : LeaveFields, 0 ≤ (calculateDurationDetails hpd l).duration) := by
  refine ⟨?_, ?_, ?_, ?_⟩
  · intro l t1 t2 hl hs he
    unfold calculateDurationDetails
    rw [normalizeDuration_durationHours]
    refine ⟨rawDuration_hour_mod l t1 t2 hl hs he, (rawDuration_hours_bounds l hl).1⟩
  · unfold calculateDurationDetails
    rw [normalizeDuration_durationHours]
    norm_num [rawDuration, requestWrapAround, TimeHM.toHours]
  · intro l sd ed hst hsd hed hneg
    unfold calculateDurationDetails
    rw [normalizeDuration_duration]
    rcases l with ⟨st, et, sd0, ed0⟩
    simp only at hst hsd hed
    cases hst; cases hsd; cases hed
    unfold rawDuration
    dsimp only
    rcases hneg with hnone | ⟨d, hd, hdneg⟩
    · rw [hnone]
    · rw [hd]
      simp [hdneg]
  · intro l
    unfold calculateDurationDetails
    rw [normalizeDuration_duration]
    exact rawDuration_duration_nonneg l

/-- Witness for C8 at concrete inputs: the wraparound request and the
reversed-dates request. -/
theorem c8_normalizer_safety_witness :
    ((calculateDurationDetails 8 requestWrapAround).durationHours =
        ((⟨2, 0⟩ : TimeHM).toHours - (⟨22, 0⟩ : TimeHM).toHours) -
          24 * ⌊((⟨2, 0⟩ : TimeHM).toHours - (⟨22, 0⟩ : TimeHM).toHours) / 24⌋ ∧
      0 ≤ (calculateDurationDetails 8 requestWrapAround).durationHours) ∧
    (calculateDurationDetails 8 requestReversedDates).duration = 0 :=
  ⟨(c8_normalizer_safety 8).1 requestWrapAround ⟨22, 0⟩ ⟨2, 0⟩ (by decide) rfl rfl,
   (c8_normalizer_safety 8).2.2.1 requestReversedDates (some 10) (some 5) rfl rfl rfl
     (Or.inr ⟨-4, by decide, by decide⟩)⟩

/-- Structural equation for consume with a resolved leave type. -/
theorem updateLeaveUsed_true (hpd : ℤ) (l : LeaveFields) (rec : Option LeaveUsed) :
    updateLeaveUsed hpd true l rec =
      if (calculateDurationDetails hpd l).calculatedDays = 0 ∧
          (calculateDurationDetails hpd l).calculatedHours = 0 then rec
      else
        match rec with
        | some r => some ⟨r.days + (calculateDurationDetails hpd l).calculatedDays,
                          r.hour + (calculateDurationDetails hpd l).calculatedHours⟩
        | none => some ⟨(calculateDurationDetails hpd l).calculatedDays,
                        (calculateDurationDetails hpd l).calculatedHours⟩ := rfl

/-- Structural equation for revert of an existing row with a resolved leave
type. -/
theorem revertLeaveUsed_true_some (hpd : ℤ) (l : LeaveFields) (r : LeaveUsed) :
    revertLeaveUsed hpd true l (some r) =
      some ⟨max 0 (r.days - (calculateDurationDetails hpd l).calculatedDays),
            max 0 (r.hour - (calculateDurationDetails hpd l).calculatedHours)⟩ := rfl

/-- Revert of a missing row is a no-op. -/
theorem revertLeaveUsed_true_none (hpd : ℤ) (l : LeaveFields) :
    revertLeaveUsed hpd true l none = none := rfl


/-- **C1 (counterexample).**  The prior row satisfies the claimed invariant
(hour 5 lies in `[0, 8)`), the consumed 09:00-14:00 request adds five
normalized hours, and the resulting row stores hour 10, at or above the
configured eight hours per working day: consume does not re-normalize the
sum. -/
theorem c1_counterexample :
    ((0 : ℤ) ≤ 5 ∧ (5 : ℤ) < 8) ∧
    updateLeaveUsed 8 true requestFiveHours (some ⟨0, 5⟩) = some ⟨0, 10⟩ ∧
    ¬ ((10 : ℤ) < 8) := by
  refine ⟨by decide, ?_, by decide⟩
  norm_num [updateLeaveUsed, calculateDurationDetails, normalizeDuration, rawDuration,
    TimeHM.toHours, requestFiveHours]

/-- **C1 (amended).**  The request duration itself is normalized before the
addition, but the stored sum is not re-normalized: after consume the hour
field is nonnegative and bounded by the old hours plus `hpd − 1` (it can reach
or exceed `hpd`); after revert it is nonnegative and bounded by the old
hours. -/
theorem c1_consume_hours_amended (hpd : ℤ) (l : LeaveFields) (r : LeaveUsed)
    (hl : l.Wf) (hpdpos : 0 < hpd) (hr : 0 ≤ r.hour) :
    (0 ≤ leaveUsedHour (updateLeaveUsed hpd true l (some r)) ∧
      leaveUsedHour (updateLeaveUsed hpd true l (some r)) ≤ r.hour + (hpd - 1)) ∧
    (0 ≤ leaveUsedHour (revertLeaveUsed hpd true l (some r)) ∧
      leaveUsedHour (revertLeaveUsed hpd true l (some r)) ≤ r.hour) := by
  obtain ⟨hcd, hch0, hch1⟩ := calcDetails_bounds hpd l hl hpdpos
  rw [updateLeaveUsed_true, revertLeaveUsed_true_some]
  constructor
  · split <;> rename_i hz <;> dsimp only [leaveUsedHour] <;> omega
  · dsimp only [leaveUsedHour]
    omega

/-- Witness for the amended C1 at the wraparound request and row `(0, 5)`. -/
theorem c1_consume_hours_amended_witness :
    (0 ≤ leaveUsedHour (updateLeaveUsed 8 true requestWrapAround (some ⟨0, 5⟩)) ∧
      leaveUsedHour (updateLeaveUsed 8 true requestWrapAround (some ⟨0, 5⟩)) ≤ 5 + (8 - 1)) ∧
    (0 ≤ leaveUsedHour (revertLeaveUsed 8 true requestWrapAround (some ⟨0, 5⟩)) ∧
      leaveUsedHour (revertLeaveUsed 8 true requestWrapAround (some ⟨0, 5⟩)) ≤ 5) :=
  c1_consume_hours_amended 8 requestWrapAround ⟨0, 5⟩ (by decide) (by decide) (by decide)

/-- **C4.**  Consuming a request duration and then reverting the same request
duration restores the usage row exactly: an existing nonnegative row comes
back unchanged, and a row created by the consumption comes back with zero
days and zero hours (the default usage values of a missing row). -/
theorem c4_roundtrip (hpd : ℤ) (l : LeaveFields) (r : LeaveUsed)
    (hd : 0 ≤ r.days) (hh : 0 ≤ r.hour) :
    revertLeaveUsed hpd true l (updateLeaveUsed hpd true l (some r)) = some r ∧
    leaveUsedDays (revertLeaveUsed hpd true l (updateLeaveUsed hpd true l none)) = 0 ∧
    leaveUsedHour (revertLeaveUsed hpd true l (updateLeaveUsed hpd true l none)) = 0 := by
  obtain ⟨rd, rh⟩ := r
  dsimp only at hd hh
  rw [updateLeaveUsed_true, updateLeaveUsed_true]
  split <;> rename_i hz
  · rw [revertLeaveUsed_true_some, revertLeaveUsed_true_none]
    refine ⟨?_, rfl, rfl⟩
    simp only [Option.some.injEq, LeaveUsed.mk.injEq]
    omega
  · rw [revertLeaveUsed_true_some, revertLeaveUsed_true_some]
    refine ⟨?_, ?_, ?_⟩
    · simp only [Option.some.injEq, LeaveUsed.mk.injEq]
      omega
    · dsimp only [leaveUsedDays]
      omega
    · dsimp only [leaveUsedHour]
      omega

/-- Witness for C4 at a concrete row and the five-hour request. -/
theorem c4_roundtrip_witness :
    revertLeaveUsed 8 true requestFiveHours
        (updateLeaveUsed 8 true requestFiveHours (some ⟨2, 3⟩)) = some ⟨2, 3⟩ ∧
    leaveUsedDays (revertLeaveUsed 8 true requestFiveHours
        (updateLeaveUsed 8 true requestFiveHours none)) = 0 :=
  ⟨(c4_roundtrip 8 requestFiveHours ⟨2, 3⟩ (by decide) (by decide)).1,
   (c4_roundtrip 8 requestFiveHours ⟨2, 3⟩ (by decide) (by decide)).2.1⟩

/-- **C7.**  Usage never goes negative: after revert both fields are clamped
at zero (whatever the prior row held), consume preserves nonnegativity of
both fields, and revert of a missing row is a safe no-op. -/
theorem c7_no_negative_usage (hpd : ℤ) (l : LeaveFields) (rec : Option LeaveUsed)
    (hl : l.Wf) (hpdpos : 0 < hpd) :
    0 ≤ leaveUsedDays (revertLeaveUsed hpd true l rec) ∧
    0 ≤ leaveUsedHour (revertLeaveUsed hpd true l rec) ∧
    (0 ≤ leaveUsedDays rec → 0 ≤ leaveUsedDays (updateLeaveUsed hpd true l rec)) ∧
    (0 ≤ leaveUsedHour rec → 0 ≤ leaveUsedHour (updateLeaveUsed hpd true l rec)) ∧
    revertLeaveUsed hpd true l none = none := by
  obtain ⟨hcd, hch0, hch1⟩ := calcDetails_bounds hpd l hl hpdpos
  rw [updateLeaveUsed_true]
  cases rec with
  | none =>
      rw [revertLeaveUsed_true_none]
      refine ⟨le_refl 0, le_refl 0, ?_, ?_, rfl⟩ <;>
        (split <;> rename_i hz <;> dsimp only [leaveUsedDays, leaveUsedHour] <;> intro h <;> omega)
  | some r =>
      rw [revertLeaveUsed_true_some, revertLeaveUsed_true_none]
      refine ⟨?_, ?_, ?_, ?_, rfl⟩ <;>
        first
          | (dsimp only [leaveUsedDays, leaveUsedHour]; omega)
          | (split <;> rename_i hz <;> dsimp only [leaveUsedDays, leaveUsedHour] <;>
              intro h <;> omega)

/-- Witness for C7 at a concrete row that has drifted negative. -/
theorem c7_no_negative_usage_witness :
    0 ≤ leaveUsedDays (revertLeaveUsed 8 true requestFiveHours (some ⟨-3, -2⟩)) ∧
    0 ≤ leaveUsedHour (revertLeaveUsed 8 true requestFiveHours (some ⟨-3, -2⟩)) ∧
    revertLeaveUsed 8 true requestFiveHours none = none :=
  ⟨(c7_no_negative_usage 8 requestFiveHours (some ⟨-3, -2⟩) (by decide) (by decide)).1,
   (c7_no_negative_usage 8 requestFiveHours (some ⟨-3, -2⟩) (by decide) (by decide)).2.1,
   (c7_no_negative_usage 8 requestFiveHours (some ⟨-3, -2⟩) (by decide) (by decide)).2.2.2.2⟩

/-- **C2.**  For a non-exempt leave type the quota gate admits exactly when
`usedUnits + requestUnits ≤ quotaUnits` in hours; at entitlement 5 days,
eight-hour days and usage 4 days 0 hours, a one-day request is admitted
(40 ≤ 40) and a one-day-plus-one-hour request is denied with one day
remaining. -/
theorem c2_quota_admission (hpd quota : ℚ) (used : Option LeaveUsed) (d : ℤ) (rh : ℚ) :
    (quotaCheck hpd false (some quota) used ⟨some d, rh⟩ = QuotaDecision.admitted ↔
      (leaveUsedDays used : ℚ) * hpd + (leaveUsedHour used : ℚ) + ((d : ℚ) * hpd + rh)
        ≤ quota * hpd) ∧
    quotaCheck 8 false (some 5) (some ⟨4, 0⟩) ⟨some 1, 0⟩ = QuotaDecision.admitted ∧
    quotaCheck 8 false (some 5) (some ⟨4, 0⟩) ⟨some 1, 1⟩ = QuotaDecision.denied 1 := by
  refine ⟨?_, ?_, ?_⟩
  · unfold quotaCheck
    simp only [Bool.false_eq_true, if_false]
    dsimp only
    split <;> rename_i hgt
    · exact iff_of_false (fun h => QuotaDecision.noConfusion h) (not_le.mpr hgt)
    · exact iff_of_true rfl (not_lt.mp hgt)
  · norm_num [quotaCheck, leaveUsedDays, leaveUsedHour, toFixed2]
  · norm_num [quotaCheck, leaveUsedDays, leaveUsedHour, toFixed2]

/-- **C10.**  The submission-path duration and the consumption-path duration
disagree: a ninety-minute request is checked as one and a half hours but
consumed as one hour, and a reversed-dates request is checked as one forced
day but consumed as zero. -/
theorem c10_submission_consumption_divergence :
    ((submissionDuration true requestNinetyMinutes).reqDays = some 0 ∧
      (submissionDuration true requestNinetyMinutes).reqHours = 3 / 2) ∧
    ((calculateDurationDetails 8 requestNinetyMinutes).calculatedDays = 0 ∧
      (calculateDurationDetails 8 requestNinetyMinutes).calculatedHours = 1) ∧
    ((0 : ℚ) * 8 + 3 / 2 ≠ (0 : ℚ) * 8 + 1) ∧
    (submissionDuration false requestReversedDates).reqDays = some 1 ∧
    ((calculateDurationDetails 8 requestReversedDates).calculatedDays = 0 ∧
      (calculateDurationDetails 8 requestReversedDates).calculatedHours = 0) := by
  refine ⟨⟨?_, ?_⟩, ⟨?_, ?_⟩, ?_, ?_, ?_, ?_⟩ <;>
    norm_num [submissionDuration, calculateDurationDetails, normalizeDuration, rawDuration,
      calculateDaysBetween, TimeHM.toHours, TimeHM.toMinutes, requestNinetyMinutes,
      requestReversedDates]

/-- **C3 (counterexample).**  Approving a pending request whose leave type
cannot be resolved: consumption silently fails (the usage row stays `none`),
yet the handler reports success and persists status approved — an approved
request without corresponding consumption. -/
theorem c3_counterexample :
    putStatusLRC 8 false Status.approved 2 ⟨Status.pending, 1, requestFiveHours⟩ none
      = ⟨⟨Status.approved, 1, requestFiveHours⟩, none, StatusOutcome.ok⟩ := by
  decide

/-- **C3 (amended).**  The approve branch runs no transaction and no quota
check; consumption failures inside `updateLeaveUsed` are caught and logged, so
the transition to approved persists unchanged-usage when consumption fails
(here: unresolved leave type). -/
theorem c3_approve_not_atomic_amended (hpd : ℤ) (appr : ℕ) (req : StoredRequest)
    (used : Option LeaveUsed) (hpend : req.status = Status.pending)
    (hne : req.repid ≠ appr) :
    putStatusLRC hpd false Status.approved appr req used
      = ⟨{ req with status := Status.approved }, used, StatusOutcome.ok⟩ := by
  simp [putStatusLRC, updateLeaveUsed, hpend, hne]

/-- Witness for the amended C3. -/
theorem c3_approve_not_atomic_amended_witness :
    putStatusLRC 8 false Status.approved 2 ⟨Status.pending, 1, requestWrapAround⟩ (some ⟨1, 0⟩)
      = ⟨⟨Status.approved, 1, requestWrapAround⟩, some ⟨1, 0⟩, StatusOutcome.ok⟩ :=
  c3_approve_not_atomic_amended 8 2 ⟨Status.pending, 1, requestWrapAround⟩ (some ⟨1, 0⟩)
    rfl (by decide)

/-- **C5 (counterexample).**  The TpyeLeaveController status route transitions
an approved request to rejected while leaving the usage row untouched; an
actual revert of the request would have produced a different row, so
un-approving does not revert. -/
theorem c5_counterexample :
    putStatusTLC 8 true Status.rejected 2 ⟨Status.approved, 1, requestFiveHours⟩ (some ⟨0, 5⟩)
      = ⟨⟨Status.rejected, 1, requestFiveHours⟩, some ⟨0, 5⟩, StatusOutcome.ok⟩ ∧
    revertLeaveUsed 8 true requestFiveHours (some ⟨0, 5⟩) = some ⟨0, 0⟩ ∧
    some (⟨0, 5⟩ : LeaveUsed) ≠ some (⟨0, 0⟩ : LeaveUsed) := by
  refine ⟨by decide, ?_, by decide⟩
  norm_num [revertLeaveUsed, calculateDurationDetails, normalizeDuration, rawDuration,
    TimeHM.toHours, requestFiveHours]

/-- **C5 (amended).**  A transition into rejected never reverts: the reject
branch leaves the usage row unchanged whatever the prior status, and reversion
of a previously approved request happens only in the delete route. -/
theorem c5_reject_no_revert_amended (hpd : ℤ) (tr : Bool) (appr : ℕ) (req : StoredRequest)
    (used : Option LeaveUsed) :
    (putStatusTLC hpd tr Status.rejected appr req used).used = used ∧
    (putStatusTLC hpd tr Status.rejected appr req used).request.status = Status.rejected ∧
    (req.status = Status.approved →
      deleteRequestLRC hpd tr req used = revertLeaveUsed hpd tr req.fields used) := by
  refine ⟨rfl, rfl, fun h => ?_⟩
  unfold deleteRequestLRC
  rw [if_pos h]

/-- Witness for the amended C5 at an approved request. -/
theorem c5_reject_no_revert_amended_witness :
    (putStatusTLC 8 true Status.rejected 2 ⟨Status.approved, 1, requestFiveHours⟩
        (some ⟨1, 2⟩)).used = some ⟨1, 2⟩ ∧
    deleteRequestLRC 8 true ⟨Status.approved, 1, requestFiveHours⟩ (some ⟨1, 2⟩)
      = revertLeaveUsed 8 true requestFiveHours (some ⟨1, 2⟩) :=
  ⟨(c5_reject_no_revert_amended 8 true 2 ⟨Status.approved, 1, requestFiveHours⟩
      (some ⟨1, 2⟩)).1,
   (c5_reject_no_revert_amended 8 true 2 ⟨Status.approved, 1, requestFiveHours⟩
      (some ⟨1, 2⟩)).2.2 rfl⟩

/-- **C6 (counterexample).**  Submitting approved again for an
already-approved request through the TpyeLeaveController route is accepted and
consumes a second time: the usage row grows from five to ten hours for the
same request. -/
theorem c6_counterexample :
    putStatusTLC 8 true Status.approved 2 ⟨Status.approved, 1, requestFiveHours⟩ (some ⟨0, 5⟩)
      = ⟨⟨Status.approved, 1, requestFiveHours⟩, some ⟨0, 10⟩, StatusOutcome.ok⟩ := by
  norm_num [putStatusTLC, updateLeaveUsed, calculateDurationDetails, normalizeDuration,
    rawDuration, TimeHM.toHours, requestFiveHours]

/-- **C6 (amended).**  Only the LeaveRequestController status route enforces
the state machine: a request already approved or rejected is refused there,
with the request and usage rows left untouched; the TpyeLeaveController
duplicate lacks the guard (see the counterexample). -/
theorem c6_guard_amended (hpd : ℤ) (tr : Bool) (ns : Status) (appr : ℕ)
    (req : StoredRequest) (used : Option LeaveUsed)
    (hproc : req.status = Status.approved ∨ req.status = Status.rejected) :
    (putStatusLRC hpd tr ns appr req used).request = req ∧
    (putStatusLRC hpd tr ns appr req used).used = used ∧
    (putStatusLRC hpd tr ns appr req used).outcome ≠ StatusOutcome.ok := by
  unfold putStatusLRC
  by_cases h1 : ns ≠ Status.approved ∧ ns ≠ Status.rejected
  · rw [if_pos h1]
    exact ⟨rfl, rfl, fun h => StatusOutcome.noConfusion h⟩
  · rw [if_neg h1]
    by_cases h2 : req.repid = appr
    · rw [if_pos h2]
      exact ⟨rfl, rfl, fun h => StatusOutcome.noConfusion h⟩
    · rw [if_neg h2, if_pos hproc]
      exact ⟨rfl, rfl, fun h => StatusOutcome.noConfusion h⟩

/-- Witness for the amended C6 at an already-approved request. -/
theorem c6_guard_amended_witness :
    (putStatusLRC 8 true Status.approved 2 ⟨Status.approved, 1, requestWrapAround⟩
        (some ⟨2, 0⟩)).request = ⟨Status.approved, 1, requestWrapAround⟩ ∧
    (putStatusLRC 8 true Status.approved 2 ⟨Status.approved, 1, requestWrapAround⟩
        (some ⟨2, 0⟩)).used = some ⟨2, 0⟩ ∧
    (putStatusLRC 8 true Status.approved 2 ⟨Status.approved, 1, requestWrapAround⟩
        (some ⟨2, 0⟩)).outcome ≠ StatusOutcome.ok :=
  c6_guard_amended 8 true Status.approved 2 ⟨Status.approved, 1, requestWrapAround⟩
    (some ⟨2, 0⟩) (Or.inl rfl)

/-- The position ids targeted by a reset invocation: the explicitly given
position, or every position flagged `new_year_quota = 0`. -/
def scopePositionIds (positionId : Option ℕ) (st : ResetState) : List ℕ :=
  match positionId with
  | some pid => [pid]
  | none => (st.positions.filter (fun p => p.new_year_quota == 0)).map (fun p => p.id)

/-- An employee id is in the reset scope when some user row with that id holds
one of the targeted positions. -/
def InScope (st : ResetState) (positionIds : List ℕ) (uid : ℕ) : Prop :=
  ∃ u, u ∈ st.users ∧ u.id = uid ∧ u.position ∈ positionIds

/-- The user-id list computed by the reset service captures exactly the
in-scope employees. -/
theorem resetUserIds_contains_iff (st : ResetState) (pids : List ℕ) (uid : ℕ) :
    ((st.users.filter (fun u => pids.contains u.position)).map (fun u => u.id)).contains uid
        = true ↔ InScope st pids uid := by
  simp only [InScope, List.contains, List.elem_iff, List.mem_map, List.mem_filter]
  constructor
  · rintro ⟨u, ⟨hu, hp⟩, hid⟩
    refine ⟨u, hu, hid, ?_⟩
    simpa [List.contains, List.elem_iff] using hp
  · rintro ⟨u, hu, hid, hp⟩
    refine ⟨u, ⟨hu, ?_⟩, hid⟩
    simpa [List.contains, List.elem_iff] using hp

/-- Zero-strategy effect of the reset core: entitlements, users and positions
are untouched, the usage table keeps its rows, in-scope rows are zeroed and
out-of-scope rows unchanged. -/
theorem resetCore_zero_spec (pids : List ℕ) (st st2 : ResetState) (sm : ResetSummary)
    (h : resetCore "zero" pids st = Except.ok (st2, sm)) :
    st2.leaveQuota = st.leaveQuota ∧ st2.positions = st.positions ∧ st2.users = st.users ∧
    st2.leaveUsed.length = st.leaveUsed.length ∧
    (∀ r ∈ st.leaveUsed, InScope st pids r.user_id →
        ({ r with days := 0, hour := 0 } : UsageRow) ∈ st2.leaveUsed) ∧
    (∀ r ∈ st.leaveUsed, ¬ InScope st pids r.user_id → r ∈ st2.leaveUsed) ∧
    (∀ r ∈ st2.leaveUsed, (InScope st pids r.user_id → r.days = 0 ∧ r.hour = 0) ∧
        (¬ InScope st pids r.user_id → r ∈ st.leaveUsed)) := by
  unfold resetCore at h
  dsimp only at h
  by_cases hempty : pids.isEmpty = true
  · rw [if_pos hempty] at h
    injection h with h1
    injection h1 with h2 h3
    subst h2
    have hnone : ∀ uid, ¬ InScope st pids uid := by
      rintro uid ⟨u, _, _, hp⟩
      rw [List.isEmpty_iff] at hempty
      simp [hempty] at hp
    refine ⟨rfl, rfl, rfl, rfl, ?_, ?_, ?_⟩
    · exact fun r _ hs => absurd hs (hnone _)
    · exact fun r hr _ => hr
    · exact fun r hr => ⟨fun hs => absurd hs (hnone _), fun _ => hr⟩
  · rw [if_neg hempty] at h
    by_cases huempty :
        ((st.users.filter (fun u => pids.contains u.position)).map (fun u => u.id)).isEmpty = true
    · rw [if_pos huempty] at h
      injection h with h1
      injection h1 with h2 h3
      subst h2
      have hnone : ∀ uid, ¬ InScope st pids uid := by
        intro uid hs
        rw [← resetUserIds_contains_iff] at hs
        rw [List.isEmpty_iff] at huempty
        rw [huempty] at hs
        simp [List.contains] at hs
      refine ⟨rfl, rfl, rfl, rfl, ?_, ?_, ?_⟩
      · exact fun r _ hs => absurd hs (hnone _)
      · exact fun r hr _ => hr
      · exact fun r hr => ⟨fun hs => absurd hs (hnone _), fun _ => hr⟩
    · rw [if_neg huempty, if_neg (by decide : ¬ ("zero" = "delete"))] at h
      injection h with h1
      injection h1 with h2 h3
      subst h2
      set uids := (st.users.filter
        (fun u => pids.contains u.position)).map (fun u => u.id) with huids
      refine ⟨rfl, rfl, rfl, by simp, ?_, ?_, ?_⟩
      · intro r hr hs
        rw [← resetUserIds_contains_iff st pids] at hs
        have hmem : (if uids.contains r.user_id = true then
            ({ r with days := 0, hour := 0 } : UsageRow) else r)
              ∈ st.leaveUsed.map (fun r =>
                if uids.contains r.user_id = true then
                  ({ r with days := 0, hour := 0 } : UsageRow) else r) :=
          List.mem_map_of_mem _ hr
        rw [if_pos hs] at hmem
        exact hmem
      · intro r hr hs
        rw [← resetUserIds_contains_iff st pids] at hs
        have hmem : (if uids.contains r.user_id = true then
            ({ r with days := 0, hour := 0 } : UsageRow) else r)
              ∈ st.leaveUsed.map (fun r =>
                if uids.contains r.user_id = true then
                  ({ r with days := 0, hour := 0 } : UsageRow) else r) :=
          List.mem_map_of_mem _ hr
        rw [if_neg hs] at hmem
        exact hmem
      · intro r hr
        dsimp only at hr
        rw [List.mem_map] at hr
        obtain ⟨r0, hr0, heq⟩ := hr
        by_cases hc : uids.contains r0.user_id = true
        · rw [if_pos hc] at heq
          subst heq
          refine ⟨fun _ => ⟨rfl, rfl⟩, fun hn => ?_⟩
          rw [← resetUserIds_contains_iff st pids] at hn
          exact absurd hc hn
        · rw [if_neg hc] at heq
          subst heq
          refine ⟨fun hs => ?_, fun _ => hr0⟩
          rw [← resetUserIds_contains_iff st pids] at hs
          exact absurd hs hc

/-- Delete-strategy effect of the reset core: entitlements, users and
positions are untouched; a surviving usage row is an original out-of-scope
row, and every out-of-scope row survives. -/
theorem resetCore_delete_spec (pids : List ℕ) (st st2 : ResetState) (sm : ResetSummary)
    (h : resetCore "delete" pids st = Except.ok (st2, sm)) :
    st2.leaveQuota = st.leaveQuota ∧ st2.positions = st.positions ∧ st2.users = st.users ∧
    (∀ r ∈ st2.leaveUsed, r ∈ st.leaveUsed ∧ ¬ InScope st pids r.user_id) ∧
    (∀ r ∈ st.leaveUsed, ¬ InScope st pids r.user_id → r ∈ st2.leaveUsed) := by
  unfold resetCore at h
  dsimp only at h
  by_cases hempty : pids.isEmpty = true
  · rw [if_pos hempty] at h
    injection h with h1
    injection h1 with h2 h3
    subst h2
    have hnone : ∀ uid, ¬ InScope st pids uid := by
      rintro uid ⟨u, _, _, hp⟩
      rw [List.isEmpty_iff] at hempty
      simp [hempty] at hp
    exact ⟨rfl, rfl, rfl, fun r hr => ⟨hr, hnone _⟩, fun r hr _ => hr⟩
  · rw [if_neg hempty] at h
    by_cases huempty :
        ((st.users.filter (fun u => pids.contains u.position)).map (fun u => u.id)).isEmpty = true
    · rw [if_pos huempty] at h
      injection h with h1
      injection h1 with h2 h3
      subst h2
      have hnone : ∀ uid, ¬ InScope st pids uid := by
        intro uid hs
        rw [← resetUserIds_contains_iff] at hs
        rw [List.isEmpty_iff] at huempty
        rw [huempty] at hs
        simp [List.contains] at hs
      exact ⟨rfl, rfl, rfl, fun r hr => ⟨hr, hnone _⟩, fun r hr _ => hr⟩
    · rw [if_neg huempty, if_pos rfl] at h
      injection h with h1
      injection h1 with h2 h3
      subst h2
      set uids := (st.users.filter
        (fun u => pids.contains u.position)).map (fun u => u.id) with huids
      refine ⟨rfl, rfl, rfl, ?_, ?_⟩
      · intro r hr
        dsimp only at hr
        rw [List.mem_filter] at hr
        refine ⟨hr.1, fun hs => ?_⟩
        rw [← resetUserIds_contains_iff st pids] at hs
        rw [hs] at hr
        simp at hr
      · intro r hr hs
        rw [← resetUserIds_contains_iff st pids] at hs
        dsimp only
        rw [List.mem_filter]
        refine ⟨hr, ?_⟩
        rw [Bool.not_eq_true] at hs
        rw [hs]
        rfl

/-- **C9.**  The yearly reset: with the zero strategy, exactly the usage rows
of in-scope employees are zeroed in place (rows preserved), every entitlement
row and every out-of-scope usage row is unchanged; the delete strategy removes
exactly the in-scope rows; an absent strategy option behaves as zero (the
default). -/
theorem c9_yearly_reset (force isJan : Bool) (pid : Option ℕ) (st stZ stD : ResetState)
    (smZ smD : ResetSummary) :
    (executeResetLogic force isJan (some "zero") pid st = Except.ok (stZ, smZ) →
      stZ.leaveQuota = st.leaveQuota ∧ stZ.positions = st.positions ∧ stZ.users = st.users ∧
      stZ.leaveUsed.length = st.leaveUsed.length ∧
      (∀ r ∈ st.leaveUsed, InScope st (scopePositionIds pid st) r.user_id →
          ({ r with days := 0, hour := 0 } : UsageRow) ∈ stZ.leaveUsed) ∧
      (∀ r ∈ st.leaveUsed, ¬ InScope st (scopePositionIds pid st) r.user_id →
          r ∈ stZ.leaveUsed) ∧
      (∀ r ∈ stZ.leaveUsed,
          (InScope st (scopePositionIds pid st) r.user_id → r.days = 0 ∧ r.hour = 0) ∧
          (¬ InScope st (scopePositionIds pid st) r.user_id → r ∈ st.leaveUsed))) ∧
    (executeResetLogic force isJan (some "delete") pid st = Except.ok (stD, smD) →
      stD.leaveQuota = st.leaveQuota ∧ stD.positions = st.positions ∧ stD.users = st.users ∧
      (∀ r ∈ stD.leaveUsed, r ∈ st.leaveUsed ∧
          ¬ InScope st (scopePositionIds pid st) r.user_id) ∧
      (∀ r ∈ st.leaveUsed, ¬ InScope st (scopePositionIds pid st) r.user_id →
          r ∈ stD.leaveUsed)) ∧
    executeResetLogic force isJan none pid st
      = executeResetLogic force isJan (some "zero") pid st := by
  refine ⟨?_, ?_, rfl⟩
  · intro h
    unfold executeResetLogic at h
    dsimp only at h
    split at h
    · exact Except.noConfusion h
    · cases pid with
      | some p =>
          dsimp only at h
          split at h
          · exact resetCore_zero_spec _ _ _ _ h
          · exact Except.noConfusion h
      | none =>
          dsimp only at h
          exact resetCore_zero_spec _ _ _ _ h
  · intro h
    unfold executeResetLogic at h
    dsimp only at h
    split at h
    · exact Except.noConfusion h
    · cases pid with
      | some p =>
          dsimp only at h
          split at h
          · exact resetCore_delete_spec _ _ _ _ h
          · exact Except.noConfusion h
      | none =>
          dsimp only at h
          exact resetCore_delete_spec _ _ _ _ h

/-- Two positions (only the first flagged for reset), two users, two usage
rows and one entitlement row: a concrete state for the reset witness. -/
def resetDemoState : ResetState :=
  ⟨[⟨1, 0⟩, ⟨2, 1⟩], [⟨10, 1⟩, ⟨20, 2⟩], [⟨10, 3, 4⟩, ⟨20, 5, 6⟩], [⟨1, 7, 5⟩]⟩

/-- The demo state after a zero-strategy reset: only the row of user 10 (whose
position 1 is flagged) is zeroed. -/
def resetDemoStateZeroed : ResetState :=
  ⟨[⟨1, 0⟩, ⟨2, 1⟩], [⟨10, 1⟩, ⟨20, 2⟩], [⟨10, 0, 0⟩, ⟨20, 5, 6⟩], [⟨1, 7, 5⟩]⟩

/-- Witness for C9 on the demo state with a forced zero-strategy reset. -/
theorem c9_yearly_reset_witness :
    resetDemoStateZeroed.leaveQuota = resetDemoState.leaveQuota ∧
    resetDemoStateZeroed.leaveUsed.length = resetDemoState.leaveUsed.length ∧
    (∀ r ∈ resetDemoState.leaveUsed,
        ¬ InScope resetDemoState (scopePositionIds none resetDemoState) r.user_id →
        r ∈ resetDemoStateZeroed.leaveUsed) :=
  ⟨((c9_yearly_reset true false none resetDemoState resetDemoStateZeroed resetDemoState
      ⟨1, 1, 1⟩ ⟨0, 0, 0⟩).1 rfl).1,
   ((c9_yearly_reset true false none resetDemoState resetDemoStateZeroed resetDemoState
      ⟨1, 1, 1⟩ ⟨0, 0, 0⟩).1 rfl).2.2.2.1,
   ((c9_yearly_reset true false none resetDemoState resetDemoStateZeroed resetDemoState
      ⟨1, 1, 1⟩ ⟨0, 0, 0⟩).1 rfl).2.2.2.2.2.1⟩

end SiamIt
